import Mathlib

/-!
Shallow embedding of `model/wcid_keras/dataset/dataset.py` (class `RailDataset`).

Pixel values are modelled as rationals, numpy arrays as a shape together with a
total contents function on multi-indices, Python dicts as association lists,
and the randomized / IO-performing collaborators (glob, PIL decode+resize,
`random.shuffle`, `augment_images`, the albumentations chain) as components of
an explicit environment.  Fallible code returns `Except DsError`.
-/

/-- Shallow model of a numpy ndarray: a shape, a dtype tag, and the contents as
a total function from a multi-index to a rational pixel value (junk outside the
valid index range). -/
structure NpArray where
  shape : List Nat
  dtype : String
  data : List Nat → ℚ

/-- Value stored in the transform-probability dict `tfs_prb`: either a plain
probability (e.g. `HorizontalFlip`) or a numeric range (`RotateLimit`). -/
inductive TfVal where
  | prob (q : ℚ)
  | range (lo hi : ℚ)
deriving DecidableEq

/-- Python dict of transform probabilities, modelled as an association list
(first binding wins on lookup, matching dict-key uniqueness). -/
abbrev TfsDict := List (String × TfVal)

/-- Python `k in d` membership test on a dict. -/
def dictContains (d : TfsDict) (k : String) : Bool :=
  (List.lookup k d).isSome

/-- Python dict lookup `d[k]`. -/
def dictFind (d : TfsDict) (k : String) : Option TfVal :=
  List.lookup k d

/-- The pattern `if not k in d: d[k] = v` used by `RailDataset.__init__`
(dataset.py lines 100-111): insert a binding only when the key is absent. -/
def dictSetDefault (d : TfsDict) (k : String) (v : TfVal) : TfsDict :=
  if dictContains d k then d else d ++ [(k, v)]

/-- Errors raised by the embedded code (all `ValueError` in the source, kept
as distinct constructors so theorems can tell the raise sites apart). -/
inductive DsError where
  | unpackEmpty
  | badResolution (w h : Nat)
  | countMismatch (nImgs nMsks : Nat)
  | stemMismatch (imgStem mskStem : String)
  | indexOutOfRange (idx : Nat)
  | bgMissing
  | badMaskClasses (classes : List ℚ)
  | transposeAxesMismatch (axes rank : Nat)
  | stackEmpty
  | stackShapeMismatch
deriving DecidableEq

/-- One entry of the `A.Compose` transform list built in `__getitem__`
(dataset.py lines 143-168), recording the constructor arguments drawn from
`self.tfs_prb` and `self.res`. -/
inductive TfStep where
  | randomResizedCrop (height width : Nat) (p : ℚ) (scaleLo scaleHi : ℚ)
  | horizontalFlip (p : TfVal)
  | randomBrightnessContrast (p : TfVal)
  | rotate (limit : TfVal) (p : TfVal)
  | motionBlur (alwaysApply : Bool) (p : TfVal) (blurLo blurHi : Nat)
deriving DecidableEq

/-- External collaborators of the dataset code: filesystem globbing, path
stems, PIL `Image.open` + `resize(res)` + `np.asarray` fused into one decode
function, the process-wide `random.shuffle`, the background-compositing
`augment_images` helper, and the albumentations `Compose` application. -/
structure Env where
  glob : String → String → List String
  stem : String → String
  loadArr : String → Nat × Nat → NpArray
  shuffle : List (String × String) → List (String × String)
  augmentImages : NpArray → NpArray → String → String → TfVal → NpArray
  albApply : List TfStep → NpArray → NpArray → NpArray × NpArray

/-- State of a constructed `RailDataset` object (dataset.py lines 25-111). -/
structure RailDataset where
  imgs_pth : String
  msks_pth : String
  bg_dir_pth : Option String
  res : Nat × Nat
  img_ftype : String
  msk_ftype : String
  batch_size : Nat
  transforms : Bool
  tfs_prb : TfsDict
  img_pths : List String
  msk_pths : List String

/-- Lexicographic comparison of character lists by code point, the order
Python `sorted` uses on the path strings. -/
def charListLe : List Char → List Char → Bool
  | [], _ => true
  | _ :: _, [] => false
  | a :: as, b :: bs =>
    if a.val < b.val then true
    else if b.val < a.val then false
    else charListLe as bs

/-- Lexicographic string comparison by code point. -/
def strLe (s t : String) : Bool := charListLe s.data t.data

/-- Insertion step for the ascending string sort modelling Python `sorted`. -/
def insertStr (s : String) : List String → List String
  | [] => [s]
  | t :: ts => if strLe s t then s :: t :: ts else t :: insertStr s ts

/-- Ascending sort of path lists, modelling `sorted(...)` in `__init__`. -/
def sortStrs (l : List String) : List String := l.foldr insertStr []

/-- Stem-correspondence loop of `__init__` (dataset.py lines 91-97): returns
the first aligned pair whose stems differ, if any. -/
def findStemMismatch (env : Env) : List (String × String) → Option (String × String)
  | [] => none
  | (ip, mp) :: rest =>
    if env.stem ip ≠ env.stem mp then some (env.stem ip, env.stem mp)
    else findStemMismatch env rest

/-- Default merge of `__init__` (dataset.py lines 100-111): each of the six
recognized keys is written only when absent, in source order. -/
def mergeDefaults (tfs : TfsDict) : TfsDict :=
  let t1 := dictSetDefault tfs "HorizontalFlip" (.prob (1/2))
  let t2 := dictSetDefault t1 "RandomBrightnessContrast" (.prob (1/5))
  let t3 := dictSetDefault t2 "Rotate" (.prob (9/10))
  let t4 := dictSetDefault t3 "RotateLimit" (.range (-(5/2)) (5/2))
  let t5 := dictSetDefault t4 "MotionBlur" (.prob (1/10))
  dictSetDefault t5 "BackgroundSwap" (.prob (9/10))

/-- Constructor `RailDataset.__init__` (dataset.py lines 25-111): glob and
sort both directories, jointly shuffle the truncating `zip` of the two lists,
unpack (`zip(*shuffled_list)` raises `ValueError` on an empty corpus), run the
sanity checks in source order, then merge the transform-probability defaults. -/
def mkRailDataset (env : Env) (imgs_pth msks_pth : String) (res : Nat × Nat)
    (img_ftype msk_ftype : String) (batch_size : Nat) (transforms : Bool)
    (tfs_prb : TfsDict) (bg_dir_pth : Option String) :
    Except DsError RailDataset :=
  let img_pths := sortStrs (env.glob imgs_pth img_ftype)
  let msk_pths := sortStrs (env.glob msks_pth msk_ftype)
  let shuffled := env.shuffle (img_pths.zip msk_pths)
  if shuffled.isEmpty then .error .unpackEmpty
  else
    let simg := shuffled.map Prod.fst
    let smsk := shuffled.map Prod.snd
    if res.1 < 1 ∨ res.2 < 1 then .error (.badResolution res.1 res.2)
    else if simg.length ≠ smsk.length then
      .error (.countMismatch simg.length smsk.length)
    else
      match findStemMismatch env (simg.zip smsk) with
      | some (si, sm) => .error (.stemMismatch si sm)
      | none => .ok
          { imgs_pth := imgs_pth, msks_pth := msks_pth, bg_dir_pth := bg_dir_pth
            res := res, img_ftype := img_ftype, msk_ftype := msk_ftype
            batch_size := batch_size, transforms := transforms
            tfs_prb := mergeDefaults tfs_prb
            img_pths := simg, msk_pths := smsk }

/-- Batch count `__len__` (dataset.py lines 113-119):
`len(self.img_pths) // self.batch_size`. -/
def lenBatches (d : RailDataset) : Nat :=
  d.img_pths.length / d.batch_size

/-- Number of stored sample pairs (the corpus size of the spec). -/
def corpusSize (d : RailDataset) : Nat :=
  (d.img_pths.zip d.msk_pths).length

/-- File indices visited by the `__getitem__` loop
`for file_idx in range(batch_idx, batch_idx + self.batch_size)`
(dataset.py line 131). -/
def batchFileIndices (d : RailDataset) (batch_idx : Nat) : List Nat :=
  List.range' batch_idx d.batch_size

/-- Enumeration of all valid multi-indices of a shape, row-major. -/
def allIdx : List Nat → List (List Nat)
  | [] => [[]]
  | n :: ns => (List.range n).flatMap (fun i => (allIdx ns).map (fun idx => i :: idx))

/-- All pixel values of an array, one per valid multi-index. -/
def npValues (a : NpArray) : List ℚ := (allIdx a.shape).map a.data

/-- Model of `np.max` over the whole array. -/
def npMax (a : NpArray) : ℚ :=
  match npValues a with
  | [] => 0
  | v :: vs => vs.foldl max v

/-- Model of `np.min` over the whole array. -/
def npMin (a : NpArray) : ℚ :=
  match npValues a with
  | [] => 0
  | v :: vs => vs.foldl min v

/-- Insertion step for the ascending rational sort used by `npUnique`. -/
def insertRat (q : ℚ) : List ℚ → List ℚ
  | [] => [q]
  | r :: rs => if q ≤ r then q :: r :: rs else r :: insertRat q rs

/-- Ascending sort of rationals. -/
def sortRats (l : List ℚ) : List ℚ := l.foldr insertRat []

/-- Model of `np.unique`: the distinct values of the array in ascending order. -/
def npUnique (a : NpArray) : List ℚ := sortRats (npValues a).dedup

/-- Model of `np.expand_dims(mask_arr, axis=0)`. -/
def expandDims0 (a : NpArray) : NpArray :=
  ⟨1 :: a.shape, a.dtype, fun idx => a.data idx.tail⟩

/-- Model of `arr.astype(t)` (only the dtype tag changes; values are already
exact rationals). -/
def astype (t : String) (a : NpArray) : NpArray :=
  ⟨a.shape, t, a.data⟩

/-- Model of `arr /= c` elementwise scalar division. -/
def npDivScalar (a : NpArray) (c : ℚ) : NpArray :=
  ⟨a.shape, a.dtype, fun idx => a.data idx / c⟩

/-- Model of `arr.transpose(perm)`: axis `i` of the result is axis `perm[i]`
of the input; numpy raises `ValueError` (axes do not match array) when the
number of axes differs from the array rank, e.g. `transpose((0, 1, 2))` on a
rank-2 grayscale raster. -/
def transposeArr (perm : List Nat) (a : NpArray) : Except DsError NpArray :=
  if perm.length = a.shape.length then
    .ok ⟨perm.map (fun j => a.shape.getD j 0), a.dtype,
      fun idx => a.data ((List.range a.shape.length).map
        (fun k => idx.getD (perm.indexOf k) 0))⟩
  else .error (.transposeAxesMismatch perm.length a.shape.length)

/-- Model of `np.stack`: a new leading batch axis; `np.stack([])` raises, as
does stacking arrays of differing shapes. -/
def npStack : List NpArray → Except DsError NpArray
  | [] => .error .stackEmpty
  | a :: rest =>
    if rest.all (fun b => b.shape == a.shape) then
      .ok ⟨(a :: rest).length :: a.shape, a.dtype,
        fun idx =>
          match idx with
          | [] => 0
          | i :: idx2 => ((a :: rest).getD i a).data idx2⟩
    else .error .stackShapeMismatch

/-- Lookup used for `self.tfs_prb[...]` inside `__getitem__`; after
construction all six keys are present, so the fallback is never reached. -/
def tfsGet (d : TfsDict) (k : String) : TfVal :=
  (dictFind d k).getD (TfVal.prob 0)

/-- The `A.Compose` transform list of `__getitem__` (dataset.py lines 143-168),
with the constructor arguments the source passes. -/
def albChain (tfs : TfsDict) (res : Nat × Nat) : List TfStep :=
  [ .randomResizedCrop res.2 res.1 0 (4/5) 1
  , .horizontalFlip (tfsGet tfs "HorizontalFlip")
  , .randomBrightnessContrast (tfsGet tfs "RandomBrightnessContrast")
  , .rotate (tfsGet tfs "RotateLimit") (tfsGet tfs "Rotate")
  , .motionBlur false (tfsGet tfs "MotionBlur") 15 21 ]

/-- Validation-and-packaging tail of the `__getitem__` loop body
(dataset.py lines 189-214): two-class range check on the mask, dimension
expansion, casts, image scaling by 255, and the two transposes — the image
transpose at line 209 runs first and raises on a rank mismatch before the
mask transpose at line 210. -/
def finalizeSample (image_arr mask_arr : NpArray) :
    Except DsError (NpArray × NpArray) :=
  let highest_class := npMax mask_arr
  let lowest_class := npMin mask_arr
  if 1 < highest_class ∨ lowest_class < 0 then
    .error (.badMaskClasses (npUnique mask_arr))
  else
    let mask_arr := expandDims0 mask_arr
    let image_arr := astype "float32" image_arr
    let mask_arr := astype "float32" mask_arr
    let image_arr := npDivScalar image_arr 255
    match transposeArr [0, 1, 2] image_arr with
    | .error e => .error e
    | .ok img_trans =>
      match transposeArr [1, 2, 0] mask_arr with
      | .error e => .error e
      | .ok mask_arr => .ok (img_trans, mask_arr)

/-- Body of the `__getitem__` loop for one file index (dataset.py lines
132-214): bounds-checked path reads (`IndexError` in Python), decode+resize,
the optional augmentation branch with its background-path check, then
`finalizeSample`. -/
def processFile (env : Env) (d : RailDataset) (file_idx : Nat) :
    Except DsError (NpArray × NpArray) :=
  if file_idx < d.img_pths.length then
    if file_idx < d.msk_pths.length then
      let image_arr := env.loadArr (d.img_pths.getD file_idx "") d.res
      let mask_arr := env.loadArr (d.msk_pths.getD file_idx "") d.res
      let tf := albChain d.tfs_prb d.res
      if d.transforms then
        match d.bg_dir_pth with
        | none => .error .bgMissing
        | some bg =>
          let image_arr := env.augmentImages image_arr mask_arr bg "jpg"
            (tfsGet d.tfs_prb "BackgroundSwap")
          let aug := env.albApply tf image_arr mask_arr
          finalizeSample aug.1 aug.2
      else
        finalizeSample image_arr mask_arr
    else .error (.indexOutOfRange file_idx)
  else .error (.indexOutOfRange file_idx)

/-- The `__getitem__` loop over the selected file indices, propagating the
first raised error (Python exceptions abort the loop). -/
def processFiles (env : Env) (d : RailDataset) :
    List Nat → Except DsError (List (NpArray × NpArray))
  | [] => .ok []
  | i :: rest =>
    match processFile env d i with
    | .error e => .error e
    | .ok pr =>
      match processFiles env d rest with
      | .error e => .error e
      | .ok prs => .ok (pr :: prs)

/-- The two `np.stack` calls closing `__getitem__` (dataset.py lines 216-219). -/
def stackPairs (pairs : List (NpArray × NpArray)) :
    Except DsError (NpArray × NpArray) :=
  match npStack (pairs.map Prod.fst) with
  | .error e => .error e
  | .ok img_batch =>
    match npStack (pairs.map Prod.snd) with
    | .error e => .error e
    | .ok msk_batch => .ok (img_batch, msk_batch)

/-- `RailDataset.__getitem__` (dataset.py lines 121-219). -/
def getBatch (env : Env) (d : RailDataset) (batch_idx : Nat) :
    Except DsError (NpArray × NpArray) :=
  match processFiles env d (batchFileIndices d batch_idx) with
  | .error e => .error e
  | .ok pairs => stackPairs pairs

/-- `RailDataset.on_epoch_end` (dataset.py lines 221-230): reshuffle the
truncating `zip` of the two stored lists and unpack again. -/
def onEpochEnd (env : Env) (d : RailDataset) : Except DsError RailDataset :=
  let shuffled := env.shuffle (d.img_pths.zip d.msk_pths)
  if shuffled.isEmpty then .error .unpackEmpty
  else .ok { d with img_pths := shuffled.map Prod.fst
                    msk_pths := shuffled.map Prod.snd }

/-- Boolean success test on an embedded computation. -/
def isOkB {α : Type} : Except DsError α → Bool
  | .ok _ => true
  | .error _ => false

/-- Heap of Python dict objects; a reference is an index into the heap. -/
abbrev PyStore := List TfsDict

/-- Reference to the single dict object created for the default value
`tfs_prb: Dict = {}` when `__init__` is defined (dataset.py line 34). -/
def defaultTfsRef : Nat := 0

/-- Heap at interpreter start: only the default-argument dict exists, empty. -/
def initPyStore : PyStore := [[]]

/-- Reference-semantics wrapper for the constructor call: Python passes
`tfs_prb` by reference, a call without the argument uses the one shared
default-argument dict, and on success `__init__` has written the missing
default keys into that same heap cell (the source merges in place and stores
`self.tfs_prb = tfs_prb`, the same object). -/
def railDatasetInitRef (st : PyStore) (env : Env) (imgs_pth msks_pth : String)
    (res : Nat × Nat) (img_ftype msk_ftype : String) (batch_size : Nat)
    (transforms : Bool) (tfs_arg : Option Nat) (bg_dir_pth : Option String) :
    Except DsError (RailDataset × PyStore × Nat) :=
  let r := tfs_arg.getD defaultTfsRef
  match mkRailDataset env imgs_pth msks_pth res img_ftype msk_ftype batch_size
      transforms (st.getD r []) bg_dir_pth with
  | .error e => .error e
  | .ok d => .ok (d, st.set r d.tfs_prb, r)

/-- Spec-side description (section 4.2 of the spec): the six recognized
transform-probability keys with their documented defaults. -/
def defaultTfsList : TfsDict :=
  [ ("HorizontalFlip", .prob (1/2))
  , ("RandomBrightnessContrast", .prob (1/5))
  , ("Rotate", .prob (9/10))
  , ("RotateLimit", .range (-(5/2)) (5/2))
  , ("MotionBlur", .prob (1/10))
  , ("BackgroundSwap", .prob (9/10)) ]

/-- Spec-side description: equal list lengths and positionwise stem match. -/
def stemAligned (env : Env) (d : RailDataset) : Prop :=
  d.img_pths.length = d.msk_pths.length ∧
  ∀ i, i < d.img_pths.length →
    env.stem (d.img_pths.getD i "") = env.stem (d.msk_pths.getD i "")

/-- Elements of `List.range' s n` with step 1, indexed positionally. -/
theorem range'_getD (n : Nat) :
    ∀ s k, k < n → (List.range' s n).getD k 0 = s + k := by
  induction n with
  | zero => intro s k h; omega
  | succ n ih =>
    intro s k h
    rw [List.range'_succ s n 1]
    cases k with
    | zero => rfl
    | succ k =>
      simp only [List.getD_cons_succ]
      rw [ih (s + 1) k (by omega)]
      omega

/-- A successful loop over the file indices yields one sample per index. -/
theorem processFiles_length (env : Env) (d : RailDataset) :
    ∀ (l : List Nat) (ps : List (NpArray × NpArray)),
      processFiles env d l = .ok ps → ps.length = l.length := by
  intro l
  induction l with
  | nil =>
    intro ps h
    simp only [processFiles] at h
    injection h with h
    rw [← h]
    rfl
  | cons i rest ih =>
    intro ps h
    simp only [processFiles] at h
    cases hpf : processFile env d i with
    | error e => rw [hpf] at h; exact Except.noConfusion h
    | ok pr =>
      rw [hpf] at h
      cases hrec : processFiles env d rest with
      | error e => rw [hrec] at h; exact Except.noConfusion h
      | ok prs =>
        rw [hrec] at h
        injection h with h
        rw [← h]
        simp [ih prs hrec]

/-- Every sample produced by the loop comes from some visited file index. -/
theorem processFiles_mem (env : Env) (d : RailDataset) :
    ∀ (l : List Nat) (ps : List (NpArray × NpArray)),
      processFiles env d l = .ok ps →
      ∀ p ∈ ps, ∃ i ∈ l, processFile env d i = .ok p := by
  intro l
  induction l with
  | nil =>
    intro ps h p hp
    simp only [processFiles] at h
    injection h with h
    rw [← h] at hp
    cases hp
  | cons i rest ih =>
    intro ps h p hp
    simp only [processFiles] at h
    cases hpf : processFile env d i with
    | error e => rw [hpf] at h; exact Except.noConfusion h
    | ok pr =>
      rw [hpf] at h
      cases hrec : processFiles env d rest with
      | error e => rw [hrec] at h; exact Except.noConfusion h
      | ok prs =>
        rw [hrec] at h
        injection h with h
        rw [← h] at hp
        cases hp with
        | head => exact ⟨i, by simp, hpf⟩
        | tail _ hp =>
          obtain ⟨j, hj, hjok⟩ := ih prs hrec p hp
          exact ⟨j, by simp [hj], hjok⟩

/-- The loop propagates an error raised at its first file index. -/
theorem processFiles_cons_error (env : Env) (d : RailDataset) (i : Nat)
    (rest : List Nat) (e : DsError) (h : processFile env d i = .error e) :
    processFiles env d (i :: rest) = .error e := by
  simp only [processFiles, h]

/-- Characterization of a successful construction: the stored fields, the
equal path-list lengths, the passed stem check, and a nonempty corpus. -/
theorem mkRailDataset_ok (env : Env) (ip mp : String) (res : Nat × Nat)
    (ift mft : String) (bs : Nat) (tr : Bool) (tfs : TfsDict)
    (bg : Option String) (d : RailDataset)
    (h : mkRailDataset env ip mp res ift mft bs tr tfs bg = .ok d) :
    d.batch_size = bs ∧ d.transforms = tr ∧ d.bg_dir_pth = bg ∧
    d.res = res ∧ d.tfs_prb = mergeDefaults tfs ∧
    d.img_pths.length = d.msk_pths.length ∧
    findStemMismatch env (d.img_pths.zip d.msk_pths) = none ∧
    d.img_pths ≠ [] := by
  simp only [mkRailDataset] at h
  split at h
  · exact Except.noConfusion h
  · rename_i hne
    split at h
    · exact Except.noConfusion h
    · split at h
      · exact Except.noConfusion h
      · rename_i hlen
        split at h
        · exact Except.noConfusion h
        · rename_i hstem
          injection h with h
          subst h
          refine ⟨rfl, rfl, rfl, rfl, rfl, by simp, hstem, ?_⟩
          intro hnil
          have hs : env.shuffle ((sortStrs (env.glob ip ift)).zip
              (sortStrs (env.glob mp mft))) = [] := List.map_eq_nil_iff.mp hnil
          exact hne (by rw [hs]; rfl)

/-- A passed stem check means every aligned pair has matching stems. -/
theorem findStemMismatch_none (env : Env) :
    ∀ l, findStemMismatch env l = none →
      ∀ p ∈ l, env.stem p.1 = env.stem p.2 := by
  intro l
  induction l with
  | nil => intro _ p hp; cases hp
  | cons a rest ih =>
    intro h p hp
    obtain ⟨ip, mp⟩ := a
    simp only [findStemMismatch] at h
    split at h
    · exact Option.noConfusion h
    · rename_i hne
      cases hp with
      | head =>
        by_contra hc
        exact hne hc
      | tail _ hp => exact ih h p hp

/-- Positional membership in a zip of two lists. -/
theorem zip_getD_mem :
    ∀ (l1 l2 : List String) (i : Nat), i < l1.length → i < l2.length →
      (l1.getD i "", l2.getD i "") ∈ l1.zip l2 := by
  intro l1
  induction l1 with
  | nil => intro l2 i h1; simp at h1
  | cons a l1 ih =>
    intro l2 i h1 h2
    cases l2 with
    | nil => simp at h2
    | cons b l2 =>
      cases i with
      | zero => simp [List.zip_cons_cons]
      | succ i =>
        simp only [List.getD_cons_succ, List.zip_cons_cons]
        exact List.mem_cons_of_mem _ (ih l2 i (by simpa using h1) (by simpa using h2))

/-- Zipping the two projections of a pair list recovers the list. -/
theorem zip_of_maps {α β : Type} :
    ∀ (l : List (α × β)), (l.map Prod.fst).zip (l.map Prod.snd) = l := by
  intro l
  induction l with
  | nil => rfl
  | cons a l ih =>
    obtain ⟨x, y⟩ := a
    simp [List.zip_cons_cons, ih]

/-- Window arithmetic behind the in-bounds safety of the overlapping batch
indexing: a valid batch index leaves the whole window inside the corpus. -/
theorem window_le (n bs b : Nat) (hbs : 1 ≤ bs) (hb : b < n / bs) :
    b + bs ≤ n := by
  have h2 : (b + 1) * bs ≤ n := (Nat.le_div_iff_mul_le (by omega)).mp hb
  have h3 : b ≤ b * bs := Nat.le_mul_of_pos_right b (by omega)
  rw [Nat.succ_mul] at h2
  omega

/-- Upper bounds survive a `foldl max`. -/
theorem foldl_max_le (c : ℚ) :
    ∀ (l : List ℚ) (v : ℚ), v ≤ c → (∀ x ∈ l, x ≤ c) → l.foldl max v ≤ c := by
  intro l
  induction l with
  | nil => intro v hv _; exact hv
  | cons a l ih =>
    intro v hv hl
    exact ih (max v a) (max_le hv (hl a (by simp))) (fun x hx => hl x (by simp [hx]))

/-- The seed is below a `foldl max`. -/
theorem le_foldl_max :
    ∀ (l : List ℚ) (v : ℚ), v ≤ l.foldl max v := by
  intro l
  induction l with
  | nil => intro v; exact le_refl v
  | cons a l ih =>
    intro v
    exact le_trans (le_max_left v a) (ih (max v a))

/-- Every member is below a `foldl max`. -/
theorem mem_le_foldl_max :
    ∀ (l : List ℚ) (v x : ℚ), x ∈ l → x ≤ l.foldl max v := by
  intro l
  induction l with
  | nil => intro v x hx; cases hx
  | cons a l ih =>
    intro v x hx
    rw [List.mem_cons] at hx
    rcases hx with rfl | hx
    · exact le_trans (le_max_right v _) (le_foldl_max l _)
    · exact ih (max v a) x hx

/-- Lower bounds survive a `foldl min`. -/
theorem le_foldl_min (c : ℚ) :
    ∀ (l : List ℚ) (v : ℚ), c ≤ v → (∀ x ∈ l, c ≤ x) → c ≤ l.foldl min v := by
  intro l
  induction l with
  | nil => intro v hv _; exact hv
  | cons a l ih =>
    intro v hv hl
    exact ih (min v a) (le_min hv (hl a (by simp))) (fun x hx => hl x (by simp [hx]))

/-- The seed is above a `foldl min`. -/
theorem foldl_min_le :
    ∀ (l : List ℚ) (v : ℚ), l.foldl min v ≤ v := by
  intro l
  induction l with
  | nil => intro v; exact le_refl v
  | cons a l ih =>
    intro v
    exact le_trans (ih (min v a)) (min_le_left v a)

/-- Every member is above a `foldl min`. -/
theorem foldl_min_le_mem :
    ∀ (l : List ℚ) (v x : ℚ), x ∈ l → l.foldl min v ≤ x := by
  intro l
  induction l with
  | nil => intro v x hx; cases hx
  | cons a l ih =>
    intro v x hx
    rw [List.mem_cons] at hx
    rcases hx with rfl | hx
    · exact le_trans (foldl_min_le l _) (min_le_right v _)
    · exact ih (min v a) x hx

/-- A value at a valid multi-index is below `npMax`. -/
theorem le_npMax_of_mem (a : NpArray) (x : ℚ) (hx : x ∈ npValues a) :
    x ≤ npMax a := by
  unfold npMax
  cases hv : npValues a with
  | nil => rw [hv] at hx; cases hx
  | cons v vs =>
    rw [hv] at hx
    rw [List.mem_cons] at hx
    rcases hx with rfl | hx
    · exact le_foldl_max vs _
    · exact mem_le_foldl_max vs v x hx

/-- A value at a valid multi-index is above `npMin`. -/
theorem npMin_le_of_mem (a : NpArray) (x : ℚ) (hx : x ∈ npValues a) :
    npMin a ≤ x := by
  unfold npMin
  cases hv : npValues a with
  | nil => rw [hv] at hx; cases hx
  | cons v vs =>
    rw [hv] at hx
    rw [List.mem_cons] at hx
    rcases hx with rfl | hx
    · exact foldl_min_le vs _
    · exact foldl_min_le_mem vs v x hx

/-- A pointwise upper bound gives an `npMax` bound (empty arrays give 0). -/
theorem npMax_le (a : NpArray) (c : ℚ) (hc : 0 ≤ c)
    (h : ∀ x ∈ npValues a, x ≤ c) : npMax a ≤ c := by
  unfold npMax
  cases hv : npValues a with
  | nil => exact hc
  | cons v vs =>
    rw [hv] at h
    exact foldl_max_le c vs v (h v (by simp)) (fun x hx => h x (by simp [hx]))

/-- A pointwise lower bound gives an `npMin` bound (empty arrays give 0). -/
theorem le_npMin (a : NpArray) (c : ℚ) (hc : c ≤ 0)
    (h : ∀ x ∈ npValues a, c ≤ x) : c ≤ npMin a := by
  unfold npMin
  cases hv : npValues a with
  | nil => exact hc
  | cons v vs =>
    rw [hv] at h
    exact le_foldl_min c vs v (h v (by simp)) (fun x hx => h x (by simp [hx]))

/-- Membership characterization for the multi-index enumeration. -/
theorem mem_allIdx_cons (n : Nat) (ns : List Nat) (idx : List Nat) :
    idx ∈ allIdx (n :: ns) ↔
      ∃ i, i < n ∧ ∃ rest, rest ∈ allIdx ns ∧ idx = i :: rest := by
  simp only [allIdx, List.mem_flatMap, List.mem_map, List.mem_range]
  constructor
  · rintro ⟨i, hi, rest, hrest, heq⟩
    exact ⟨i, hi, rest, hrest, heq.symm⟩
  · rintro ⟨i, hi, rest, hrest, heq⟩
    exact ⟨i, hi, rest, hrest, heq.symm⟩

/-- Concrete environment for witnesses: two image/mask pairs on disk, identity
shuffle, all-zero 8-bit rasters, and pass-through augmentation collaborators. -/
def envA : Env :=
  { glob := fun dir _ =>
      if dir = "imgs" then ["imgs/0.png", "imgs/1.png"]
      else if dir = "msks" then ["msks/0.png", "msks/1.png"]
      else []
  , stem := fun s =>
      if s = "imgs/0.png" then "0"
      else if s = "msks/0.png" then "0"
      else if s = "imgs/1.png" then "1"
      else if s = "msks/1.png" then "1"
      else s
  , loadArr := fun _ res => ⟨[res.2, res.1], "uint8", fun _ => 0⟩
  , shuffle := fun l => l
  , augmentImages := fun im _ _ _ _ => im
  , albApply := fun _ im mk => (im, mk) }

/-- The dataset `envA` construction produces (batch size 2, augmentation off). -/
def dsA : RailDataset :=
  { imgs_pth := "imgs", msks_pth := "msks", bg_dir_pth := none, res := (8, 8)
  , img_ftype := "png", msk_ftype := "png", batch_size := 2, transforms := false
  , tfs_prb := mergeDefaults []
  , img_pths := ["imgs/0.png", "imgs/1.png"]
  , msk_pths := ["msks/0.png", "msks/1.png"] }

/-- Sanity: the embedded constructor accepts `envA` and yields `dsA`. -/
theorem mkRailDataset_envA :
    mkRailDataset envA "imgs" "msks" (8, 8) "png" "png" 2 false [] none =
      .ok dsA := by
  rfl

/-- C1: for a dataset with batch_size >= 1 and a batch index b below
`length()`, `get_batch(b)` iterates exactly the file indices
b, b+1, ..., b+batch_size-1 — the window starting at b, not at
b*batch_size — so the windows of consecutive batch indices overlap
whenever batch_size > 1. -/
theorem c1_overlapping_batch_window (env : Env) (d : RailDataset) (b : Nat)
    (hbs : 1 ≤ d.batch_size) (hb : b < lenBatches d) :
    (getBatch env d b =
      match processFiles env d (List.range' b d.batch_size) with
      | .error e => .error e
      | .ok pairs => stackPairs pairs) ∧
    (∀ k, k < d.batch_size → (batchFileIndices d b).getD k 0 = b + k) ∧
    (1 < d.batch_size →
      b + 1 ∈ batchFileIndices d b ∧ b + 1 ∈ batchFileIndices d (b + 1)) ∧
    (1 < d.batch_size → 1 ≤ b →
      batchFileIndices d b ≠ List.range' (b * d.batch_size) d.batch_size) := by
  refine ⟨rfl, ?_, ?_, ?_⟩
  · intro k hk
    exact range'_getD d.batch_size b k hk
  · intro h2
    constructor
    · rw [batchFileIndices, List.mem_range'_1]; omega
    · rw [batchFileIndices, List.mem_range'_1]; omega
  · intro h2 hb1 heq
    obtain ⟨m, hm⟩ : ∃ m, d.batch_size = m + 1 := ⟨d.batch_size - 1, by omega⟩
    rw [batchFileIndices, hm, List.range'_succ, List.range'_succ] at heq
    injection heq with h1 _
    have hlt : b < b * d.batch_size :=
      (lt_mul_iff_one_lt_right (by omega)).mpr h2
    rw [hm] at hlt
    omega

/-- Witness for C1 at batch index 0 of a concrete two-sample dataset with
batch size 2. -/
theorem c1_overlapping_batch_window_witness :
    (batchFileIndices dsA 0).getD 1 0 = 1 ∧ 1 ∈ batchFileIndices dsA 1 := by
  have h := c1_overlapping_batch_window envA dsA 0 (by decide) (by decide)
  exact ⟨h.2.1 1 (by decide), (h.2.2.1 (by decide)).2⟩

/-- C4: on a constructed dataset with 1 <= batch_size <= corpus size, every
file index in the window of a valid batch index is strictly below the corpus
size, hence strictly inside both stored path lists. -/
theorem c4_window_indices_in_bounds (env : Env) (ip mp : String)
    (res : Nat × Nat) (ift mft : String) (bs : Nat) (tr : Bool)
    (tfs : TfsDict) (bg : Option String) (d : RailDataset) (b i : Nat)
    (hcon : mkRailDataset env ip mp res ift mft bs tr tfs bg = .ok d)
    (hbs : 1 ≤ d.batch_size) (hbn : d.batch_size ≤ corpusSize d)
    (hb : b < lenBatches d) (hi : i ∈ batchFileIndices d b) :
    i < corpusSize d ∧ i < d.img_pths.length ∧ i < d.msk_pths.length := by
  obtain ⟨-, -, -, -, -, hlen, -, -⟩ :=
    mkRailDataset_ok env ip mp res ift mft bs tr tfs bg d hcon
  rw [batchFileIndices, List.mem_range'_1] at hi
  rw [lenBatches] at hb
  have hw := window_le d.img_pths.length d.batch_size b hbs hb
  have hc : corpusSize d = d.img_pths.length := by
    rw [corpusSize, List.length_zip, ← hlen, Nat.min_self]
  omega

/-- Witness for C4: index 1 of batch 0 stays in bounds on the concrete
two-sample dataset. -/
theorem c4_window_indices_in_bounds_witness :
    1 < corpusSize dsA ∧ 1 < dsA.img_pths.length ∧ 1 < dsA.msk_pths.length :=
  c4_window_indices_in_bounds envA "imgs" "msks" (8, 8) "png" "png" 2 false
    [] none dsA 0 1 (by rfl) (by decide) (by decide) (by decide) (by decide)

/-- C6: on a constructed dataset, `length()` is the floor of corpus size over
batch size (corpus size being the number of stored sample pairs); the
trailing partial batch is dropped by the integer division, never padded. -/
theorem c6_length_is_floor_div (env : Env) (ip mp : String) (res : Nat × Nat)
    (ift mft : String) (bs : Nat) (tr : Bool) (tfs : TfsDict)
    (bg : Option String) (d : RailDataset)
    (hcon : mkRailDataset env ip mp res ift mft bs tr tfs bg = .ok d)
    (hbs : 1 ≤ d.batch_size) :
    lenBatches d = corpusSize d / d.batch_size := by
  obtain ⟨-, -, -, -, -, hlen, -, -⟩ :=
    mkRailDataset_ok env ip mp res ift mft bs tr tfs bg d hcon
  rw [lenBatches, corpusSize, List.length_zip, ← hlen, Nat.min_self]

/-- Witness for C6 on the concrete two-sample dataset with batch size 2. -/
theorem c6_length_is_floor_div_witness :
    lenBatches dsA = corpusSize dsA / dsA.batch_size :=
  c6_length_is_floor_div envA "imgs" "msks" (8, 8) "png" "png" 2 false []
    none dsA (by rfl) (by decide)

/-- Lookup hits in the left part of an append are unchanged. -/
theorem lookup_append_some (k2 : String) (v2 : TfVal) :
    ∀ (d rest : TfsDict), List.lookup k2 d = some v2 →
      List.lookup k2 (d ++ rest) = some v2 := by
  intro d
  induction d with
  | nil => intro rest h; exact Option.noConfusion h
  | cons a d ih =>
    intro rest h
    obtain ⟨ka, va⟩ := a
    simp only [List.lookup, List.cons_append] at h ⊢
    cases hbeq : (k2 == ka) with
    | true => rw [hbeq] at h; exact h
    | false => rw [hbeq] at h; exact ih rest h

/-- Lookup misses in the left part of an append fall through to the right. -/
theorem lookup_append_none (k2 : String) :
    ∀ (d rest : TfsDict), List.lookup k2 d = none →
      List.lookup k2 (d ++ rest) = List.lookup k2 rest := by
  intro d
  induction d with
  | nil => intro rest _; rfl
  | cons a d ih =>
    intro rest h
    obtain ⟨ka, va⟩ := a
    simp only [List.lookup, List.cons_append] at h ⊢
    cases hbeq : (k2 == ka) with
    | true => rw [hbeq] at h; exact Option.noConfusion h
    | false => rw [hbeq] at h; exact ih rest h

/-- A `setdefault`-style write never disturbs an existing binding. -/
theorem dictFind_setDefault_preserved (d : TfsDict) (k k2 : String)
    (v v2 : TfVal) (h : dictFind d k2 = some v2) :
    dictFind (dictSetDefault d k v) k2 = some v2 := by
  unfold dictSetDefault
  split
  · exact h
  · exact lookup_append_some k2 v2 d [(k, v)] h

/-- After a `setdefault`-style write, the key holds the caller's value when
one was supplied and the default otherwise. -/
theorem dictFind_setDefault_self (d : TfsDict) (k : String) (v : TfVal) :
    dictFind (dictSetDefault d k v) k = some ((dictFind d k).getD v) := by
  unfold dictSetDefault dictContains
  split
  · rename_i h
    obtain ⟨v2, hv2⟩ := Option.isSome_iff_exists.mp h
    unfold dictFind
    rw [hv2]
    rfl
  · rename_i h
    have hnone : List.lookup k d = none := by
      cases hl : List.lookup k d with
      | none => rfl
      | some v2 => rw [hl] at h; exact absurd rfl h
    unfold dictFind
    rw [lookup_append_none k d [(k, v)] hnone, hnone]
    simp [List.lookup]

/-- A `setdefault`-style write leaves all other keys untouched. -/
theorem dictFind_setDefault_other (d : TfsDict) (k k2 : String) (v : TfVal)
    (hne : k2 ≠ k) : dictFind (dictSetDefault d k v) k2 = dictFind d k2 := by
  unfold dictSetDefault
  split
  · rfl
  · unfold dictFind
    cases hl : List.lookup k2 d with
    | some v2 => exact lookup_append_some k2 v2 d [(k, v)] hl
    | none =>
      rw [lookup_append_none k2 d [(k, v)] hl]
      simp [List.lookup, beq_false_of_ne hne]

/-- C8: the constructor's default merge gives each of the six recognized keys
the caller's value when the caller supplied that key and the documented
default otherwise, and it preserves every caller-supplied binding, including
unrecognized extra keys. -/
theorem c8_default_merge (d : TfsDict) :
    (∀ k dv, (k, dv) ∈ defaultTfsList →
      dictFind (mergeDefaults d) k = some ((dictFind d k).getD dv)) ∧
    (∀ k v, dictFind d k = some v → dictFind (mergeDefaults d) k = some v) := by
  constructor
  · intro k dv hmem
    simp only [defaultTfsList, List.mem_cons, Prod.mk.injEq,
      List.not_mem_nil, or_false] at hmem
    rcases hmem with ⟨rfl, rfl⟩ | ⟨rfl, rfl⟩ | ⟨rfl, rfl⟩ | ⟨rfl, rfl⟩ |
      ⟨rfl, rfl⟩ | ⟨rfl, rfl⟩
    · simp only [mergeDefaults]
      apply dictFind_setDefault_preserved
      apply dictFind_setDefault_preserved
      apply dictFind_setDefault_preserved
      apply dictFind_setDefault_preserved
      apply dictFind_setDefault_preserved
      exact dictFind_setDefault_self d "HorizontalFlip" (.prob (1/2))
    · simp only [mergeDefaults]
      apply dictFind_setDefault_preserved
      apply dictFind_setDefault_preserved
      apply dictFind_setDefault_preserved
      apply dictFind_setDefault_preserved
      rw [dictFind_setDefault_self,
        dictFind_setDefault_other _ "HorizontalFlip" "RandomBrightnessContrast" _ (by decide)]
    · simp only [mergeDefaults]
      apply dictFind_setDefault_preserved
      apply dictFind_setDefault_preserved
      apply dictFind_setDefault_preserved
      rw [dictFind_setDefault_self,
        dictFind_setDefault_other _ "RandomBrightnessContrast" "Rotate" _ (by decide),
        dictFind_setDefault_other _ "HorizontalFlip" "Rotate" _ (by decide)]
    · simp only [mergeDefaults]
      apply dictFind_setDefault_preserved
      apply dictFind_setDefault_preserved
      rw [dictFind_setDefault_self,
        dictFind_setDefault_other _ "Rotate" "RotateLimit" _ (by decide),
        dictFind_setDefault_other _ "RandomBrightnessContrast" "RotateLimit" _ (by decide),
        dictFind_setDefault_other _ "HorizontalFlip" "RotateLimit" _ (by decide)]
    · simp only [mergeDefaults]
      apply dictFind_setDefault_preserved
      rw [dictFind_setDefault_self,
        dictFind_setDefault_other _ "RotateLimit" "MotionBlur" _ (by decide),
        dictFind_setDefault_other _ "Rotate" "MotionBlur" _ (by decide),
        dictFind_setDefault_other _ "RandomBrightnessContrast" "MotionBlur" _ (by decide),
        dictFind_setDefault_other _ "HorizontalFlip" "MotionBlur" _ (by decide)]
    · simp only [mergeDefaults]
      rw [dictFind_setDefault_self,
        dictFind_setDefault_other _ "MotionBlur" "BackgroundSwap" _ (by decide),
        dictFind_setDefault_other _ "RotateLimit" "BackgroundSwap" _ (by decide),
        dictFind_setDefault_other _ "Rotate" "BackgroundSwap" _ (by decide),
        dictFind_setDefault_other _ "RandomBrightnessContrast" "BackgroundSwap" _ (by decide),
        dictFind_setDefault_other _ "HorizontalFlip" "BackgroundSwap" _ (by decide)]
  · intro k v h
    simp only [mergeDefaults]
    apply dictFind_setDefault_preserved
    apply dictFind_setDefault_preserved
    apply dictFind_setDefault_preserved
    apply dictFind_setDefault_preserved
    apply dictFind_setDefault_preserved
    exact dictFind_setDefault_preserved _ _ _ _ _ h

/-- Witness for C8 on a dict supplying `Rotate` and an unrecognized extra key:
the caller's `Rotate` survives, the extra key survives, and the omitted
`MotionBlur` takes its default. -/
theorem c8_default_merge_witness :
    dictFind (mergeDefaults [("Rotate", .prob 1), ("Extra", .prob 0)])
        "Rotate" = some (.prob 1) ∧
    dictFind (mergeDefaults [("Rotate", .prob 1), ("Extra", .prob 0)])
        "Extra" = some (.prob 0) ∧
    dictFind (mergeDefaults [("Rotate", .prob 1), ("Extra", .prob 0)])
        "MotionBlur" = some (.prob (1/10)) := by
  have h := c8_default_merge [("Rotate", .prob 1), ("Extra", .prob 0)]
  refine ⟨?_, ?_, ?_⟩
  · rw [h.1 "Rotate" (.prob (9/10)) (by simp [defaultTfsList])]
    rfl
  · exact h.2 "Extra" (.prob 0) (by decide)
  · rw [h.1 "MotionBlur" (.prob (1/10)) (by simp [defaultTfsList])]
    rfl

/-- A `List.set` write is visible at the written index. -/
theorem getD_set_self :
    ∀ (l : PyStore) (i : Nat) (v : TfsDict), i < l.length →
      (l.set i v).getD i [] = v := by
  intro l
  induction l with
  | nil => intro i v h; simp at h
  | cons a l ih =>
    intro i v h
    cases i with
    | zero => rfl
    | succ i =>
      simp only [List.set_cons_succ, List.getD_cons_succ]
      exact ih i v (by simpa using h)

/-- C10: the constructor mutates the caller's transform-probability dict
object in place (the heap cell passed by reference afterwards holds the
default-merged dict, and the dataset stores that same cell), and every call
that omits the `tfs_prb` argument uses the one shared default-argument dict
object. -/
theorem c10_tfs_dict_mutation_and_sharing (st : PyStore) (env : Env)
    (ip mp : String) (res : Nat × Nat) (ift mft : String) (bs : Nat)
    (tr : Bool) (bg : Option String) (r : Nat) (d : RailDataset)
    (st2 : PyStore) (r2 : Nat) (hr : r < st.length)
    (h : railDatasetInitRef st env ip mp res ift mft bs tr (some r) bg =
      .ok (d, st2, r2)) :
    (r2 = r ∧ st2.getD r [] = mergeDefaults (st.getD r []) ∧
      d.tfs_prb = st2.getD r []) ∧
    (∀ (st3 : PyStore) (env3 : Env) (d3 : RailDataset) (st4 : PyStore)
        (r4 : Nat),
      railDatasetInitRef st3 env3 ip mp res ift mft bs tr none bg =
        .ok (d3, st4, r4) → r4 = defaultTfsRef) := by
  constructor
  · simp only [railDatasetInitRef, Option.getD_some] at h
    cases hmk : mkRailDataset env ip mp res ift mft bs tr (st.getD r []) bg with
    | error e => rw [hmk] at h; exact Except.noConfusion h
    | ok d1 =>
      rw [hmk] at h
      injection h with h
      obtain ⟨-, -, -, -, htfs, -, -, -⟩ :=
        mkRailDataset_ok env ip mp res ift mft bs tr (st.getD r []) bg d1 hmk
      have h1 : d1 = d := congrArg Prod.fst h
      have h2 : st2 = st.set r d1.tfs_prb :=
        (congrArg (fun p => p.2.1) h).symm
      have h3 : r2 = r := (congrArg (fun p => p.2.2) h).symm
      subst h1
      refine ⟨h3, ?_, ?_⟩
      · rw [h2, getD_set_self st r d1.tfs_prb hr, htfs]
      · rw [h2, getD_set_self st r d1.tfs_prb hr]
  · intro st3 env3 d3 st4 r4 h3
    simp only [railDatasetInitRef, Option.getD_none] at h3
    cases hmk : mkRailDataset env3 ip mp res ift mft bs tr
        (st3.getD defaultTfsRef []) bg with
    | error e => rw [hmk] at h3; exact Except.noConfusion h3
    | ok d1 =>
      rw [hmk] at h3
      injection h3 with h3
      exact ((congrArg (fun p => p.2.2) h3).symm : r4 = defaultTfsRef)

/-- Witness for C10: constructing against the interpreter-start heap with an
explicit reference to the default dict object mutates that heap cell to the
merged defaults, and the dataset aliases it. -/
theorem c10_tfs_dict_mutation_and_sharing_witness :
    ([mergeDefaults []] : PyStore).getD 0 [] =
      mergeDefaults (initPyStore.getD 0 []) ∧
    dsA.tfs_prb = ([mergeDefaults []] : PyStore).getD 0 [] := by
  have h := c10_tfs_dict_mutation_and_sharing initPyStore envA "imgs" "msks"
    (8, 8) "png" "png" 2 false none 0 dsA [mergeDefaults []] 0
    (by decide) (by rfl)
  exact ⟨h.1.2.1, h.1.2.2⟩

/-- C7: on a dataset constructed with augmentation enabled and no background
directory, fetching any valid batch raises the background-path validation
error (the branch fires before any augmentation collaborator is invoked). -/
theorem c7_bg_missing_error (env : Env) (ip mp : String) (res : Nat × Nat)
    (ift mft : String) (bs : Nat) (tfs : TfsDict) (d : RailDataset) (b : Nat)
    (hcon : mkRailDataset env ip mp res ift mft bs true tfs none = .ok d)
    (hbs : 1 ≤ d.batch_size) (hb : b < lenBatches d) :
    getBatch env d b = .error .bgMissing := by
  obtain ⟨-, htr, hbg, -, -, hlen, -, -⟩ :=
    mkRailDataset_ok env ip mp res ift mft bs true tfs none d hcon
  rw [lenBatches] at hb
  have hblt : b < d.img_pths.length := lt_of_lt_of_le hb (Nat.div_le_self _ _)
  have hblt2 : b < d.msk_pths.length := by omega
  have hpf : processFile env d b = .error .bgMissing := by
    simp [processFile, htr, hbg, hblt, hblt2]
  have hcons : batchFileIndices d b =
      b :: List.range' (b + 1) (d.batch_size - 1) := by
    rw [batchFileIndices]
    obtain ⟨m, hm⟩ : ∃ m, d.batch_size = m + 1 := ⟨d.batch_size - 1, by omega⟩
    rw [hm, List.range'_succ]
    simp [hm]
  rw [getBatch, hcons, processFiles_cons_error env d b _ _ hpf]

/-- Dataset with batch size 1 and augmentation on, but no background path. -/
def dsB : RailDataset :=
  { imgs_pth := "imgs", msks_pth := "msks", bg_dir_pth := none, res := (8, 8)
  , img_ftype := "png", msk_ftype := "png", batch_size := 1, transforms := true
  , tfs_prb := mergeDefaults []
  , img_pths := ["imgs/0.png", "imgs/1.png"]
  , msk_pths := ["msks/0.png", "msks/1.png"] }

/-- Witness for C7 on a concrete augmentation-enabled dataset without a
background directory. -/
theorem c7_bg_missing_error_witness : getBatch envA dsB 0 = .error .bgMissing :=
  c7_bg_missing_error envA "imgs" "msks" (8, 8) "png" "png" 1 [] dsB 0
    (by rfl) (by decide) (by decide)

/-- C9: a constructed dataset keeps its image and mask path lists equal in
length and stem-aligned at every position, and the epoch-end reshuffle
succeeds, permutes the aligned pair list without changing its membership, and
preserves the alignment invariant. -/
theorem c9_alignment_invariant (env : Env) (ip mp : String) (res : Nat × Nat)
    (ift mft : String) (bs : Nat) (tr : Bool) (tfs : TfsDict)
    (bg : Option String) (d : RailDataset)
    (hshuf : ∀ l, List.Perm (env.shuffle l) l)
    (hcon : mkRailDataset env ip mp res ift mft bs tr tfs bg = .ok d) :
    stemAligned env d ∧
    ∃ d2, onEpochEnd env d = .ok d2 ∧ stemAligned env d2 ∧
      List.Perm (d2.img_pths.zip d2.msk_pths) (d.img_pths.zip d.msk_pths) := by
  obtain ⟨-, -, -, -, -, hlen, hstem, hne⟩ :=
    mkRailDataset_ok env ip mp res ift mft bs tr tfs bg d hcon
  have hstems := findStemMismatch_none env _ hstem
  have halign : stemAligned env d := by
    refine ⟨hlen, fun i hi => ?_⟩
    exact hstems _ (zip_getD_mem d.img_pths d.msk_pths i hi (by omega))
  refine ⟨halign, ?_⟩
  have hperm := hshuf (d.img_pths.zip d.msk_pths)
  cases hs : env.shuffle (d.img_pths.zip d.msk_pths) with
  | nil =>
    rw [hs] at hperm
    have hz : d.img_pths.zip d.msk_pths = [] := (hperm.symm).eq_nil
    have : d.img_pths.length = 0 := by
      have := congrArg List.length hz
      rw [List.length_zip, ← hlen, Nat.min_self] at this
      simpa using this
    exact absurd (List.length_eq_zero.mp this) hne
  | cons p ps =>
    rw [hs] at hperm
    refine ⟨{ d with img_pths := (p :: ps).map Prod.fst
                     msk_pths := (p :: ps).map Prod.snd }, ?_, ?_, ?_⟩
    · unfold onEpochEnd
      rw [hs]
      rfl
    · constructor
      · simp
      · intro i hi
        simp only [List.length_map] at hi
        show env.stem (((p :: ps).map Prod.fst).getD i "") =
          env.stem (((p :: ps).map Prod.snd).getD i "")
        have hmem : (((p :: ps).map Prod.fst).getD i "",
            ((p :: ps).map Prod.snd).getD i "") ∈ d.img_pths.zip d.msk_pths := by
          apply hperm.subset
          have := zip_getD_mem ((p :: ps).map Prod.fst) ((p :: ps).map Prod.snd)
            i (by simpa using hi) (by simpa using hi)
          rw [zip_of_maps] at this
          exact this
        exact hstems _ hmem
    · show List.Perm (((p :: ps).map Prod.fst).zip ((p :: ps).map Prod.snd))
        (d.img_pths.zip d.msk_pths)
      rw [zip_of_maps]
      exact hperm

/-- Witness for C9 on the concrete two-sample dataset with identity shuffle. -/
theorem c9_alignment_invariant_witness :
    stemAligned envA dsA ∧
    ∃ d2, onEpochEnd envA dsA = .ok d2 ∧ stemAligned envA d2 ∧
      List.Perm (d2.img_pths.zip d2.msk_pths)
        (dsA.img_pths.zip dsA.msk_pths) :=
  c9_alignment_invariant envA "imgs" "msks" (8, 8) "png" "png" 2 false []
    none dsA (fun l => List.Perm.refl l) (by rfl)

/-- A transpose whose axis count matches the array rank succeeds. -/
theorem transposeArr_eq_ok (perm : List Nat) (a : NpArray)
    (h : perm.length = a.shape.length) :
    transposeArr perm a = .ok ⟨perm.map (fun j => a.shape.getD j 0), a.dtype,
      fun idx => a.data ((List.range a.shape.length).map
        (fun k => idx.getD (perm.indexOf k) 0))⟩ := by
  unfold transposeArr
  rw [if_pos h]

/-- Validation-step characterization on the shapes the packaging transposes
accept (rank-3 image, rank-2 mask): `finalizeSample` fails exactly when the
mask maximum exceeds 1 or the minimum is below 0, and on failure reports the
distinct class values. -/
theorem finalizeSample_error_iff (im mk2 : NpArray)
    (him : im.shape.length = 3) (hmk : mk2.shape.length = 2) :
    (isOkB (finalizeSample im mk2) = false ↔
      1 < npMax mk2 ∨ npMin mk2 < 0) ∧
    (1 < npMax mk2 ∨ npMin mk2 < 0 →
      finalizeSample im mk2 = .error (.badMaskClasses (npUnique mk2))) := by
  simp only [finalizeSample]
  by_cases hc : 1 < npMax mk2 ∨ npMin mk2 < 0
  · rw [if_pos hc]
    exact ⟨by simp [isOkB, hc], fun _ => rfl⟩
  · rw [if_neg hc]
    rw [transposeArr_eq_ok [0, 1, 2] (npDivScalar (astype "float32" im) 255)
      (by show (3 : Nat) = im.shape.length; omega)]
    rw [transposeArr_eq_ok [1, 2, 0] (astype "float32" (expandDims0 mk2))
      (by show (3 : Nat) = mk2.shape.length + 1; omega)]
    exact ⟨by simp [isOkB, hc], fun hcc => absurd hcc hc⟩

/-- C5: in the augmentation-disabled fetch path, with images decoding at
rank 3 and masks at rank 2 (the shapes on which the packaging transposes of
dataset.py lines 209-210 are defined), the per-sample fetch fails exactly
when the mask maximum exceeds 1 or the minimum is below 0, and then it fails
with the validation error reporting the distinct class values; consequently
a mask containing the value 2 anywhere raises the error, while a mask whose
values all lie within [0, 1] (for example one containing 0.5) passes. -/
theorem c5_mask_range_validation (env : Env) (d : RailDataset) (i : Nat)
    (htr : d.transforms = false) (h1 : i < d.img_pths.length)
    (h2 : i < d.msk_pths.length)
    (himg : (env.loadArr (d.img_pths.getD i "") d.res).shape.length = 3)
    (hmsk : (env.loadArr (d.msk_pths.getD i "") d.res).shape.length = 2) :
    (processFile env d i =
      finalizeSample (env.loadArr (d.img_pths.getD i "") d.res)
        (env.loadArr (d.msk_pths.getD i "") d.res)) ∧
    (isOkB (processFile env d i) = false ↔
      1 < npMax (env.loadArr (d.msk_pths.getD i "") d.res) ∨
        npMin (env.loadArr (d.msk_pths.getD i "") d.res) < 0) ∧
    (1 < npMax (env.loadArr (d.msk_pths.getD i "") d.res) ∨
        npMin (env.loadArr (d.msk_pths.getD i "") d.res) < 0 →
      processFile env d i = .error (.badMaskClasses
        (npUnique (env.loadArr (d.msk_pths.getD i "") d.res)))) ∧
    ((∃ idx ∈ allIdx (env.loadArr (d.msk_pths.getD i "") d.res).shape,
        (env.loadArr (d.msk_pths.getD i "") d.res).data idx = 2) →
      processFile env d i = .error (.badMaskClasses
        (npUnique (env.loadArr (d.msk_pths.getD i "") d.res)))) ∧
    ((∀ idx ∈ allIdx (env.loadArr (d.msk_pths.getD i "") d.res).shape,
        0 ≤ (env.loadArr (d.msk_pths.getD i "") d.res).data idx ∧
          (env.loadArr (d.msk_pths.getD i "") d.res).data idx ≤ 1) →
      isOkB (processFile env d i) = true) := by
  have hB : processFile env d i =
      finalizeSample (env.loadArr (d.img_pths.getD i "") d.res)
        (env.loadArr (d.msk_pths.getD i "") d.res) := by
    simp [processFile, htr, h1, h2]
  have hfe := finalizeSample_error_iff
    (env.loadArr (d.img_pths.getD i "") d.res)
    (env.loadArr (d.msk_pths.getD i "") d.res) himg hmsk
  refine ⟨hB, ?_, ?_, ?_, ?_⟩
  · rw [hB]
    exact hfe.1
  · intro hc
    rw [hB]
    exact hfe.2 hc
  · rintro ⟨idx, hidx, hval⟩
    have hmem : (2 : ℚ) ∈
        npValues (env.loadArr (d.msk_pths.getD i "") d.res) := by
      rw [← hval]
      exact List.mem_map_of_mem _ hidx
    have hmax := le_npMax_of_mem _ _ hmem
    rw [hB]
    exact hfe.2 (Or.inl (by linarith))
  · intro hall
    have hmax : npMax (env.loadArr (d.msk_pths.getD i "") d.res) ≤ 1 := by
      apply npMax_le _ 1 (by norm_num)
      intro x hx
      obtain ⟨idx, hidx, rfl⟩ := List.mem_map.mp hx
      exact (hall idx hidx).2
    have hmin : 0 ≤ npMin (env.loadArr (d.msk_pths.getD i "") d.res) := by
      apply le_npMin _ 0 le_rfl
      intro x hx
      obtain ⟨idx, hidx, rfl⟩ := List.mem_map.mp hx
      exact (hall idx hidx).1
    rw [hB]
    cases hok : isOkB (finalizeSample
        (env.loadArr (d.img_pths.getD i "") d.res)
        (env.loadArr (d.msk_pths.getD i "") d.res)) with
    | true => rfl
    | false =>
      rcases hfe.1.mp hok with hlt | hlt
      · linarith
      · linarith

/-- Environment whose single mask decodes with the out-of-range class value 2
everywhere. -/
def envC : Env :=
  { glob := fun dir _ =>
      if dir = "imgs" then ["i0.png"]
      else if dir = "msks" then ["m0.png"] else []
  , stem := fun s =>
      if s = "i0.png" then "0" else if s = "m0.png" then "0" else s
  , loadArr := fun p res =>
      if p = "m0.png" then ⟨[res.2, res.1], "uint8", fun _ => 2⟩
      else ⟨[res.2, res.1, 3], "uint8", fun _ => 0⟩
  , shuffle := fun l => l
  , augmentImages := fun im _ _ _ _ => im
  , albApply := fun _ im mk2 => (im, mk2) }

/-- The rational one half, written with an explicit numerator and denominator
so that concrete witnesses evaluate inside the kernel. -/
def half : ℚ := ⟨1, 2, by decide, by decide⟩

/-- Environment whose single mask decodes with the in-range non-binary value
0.5 everywhere. -/
def envD : Env :=
  { envC with loadArr := fun p res =>
      if p = "m0.png" then ⟨[res.2, res.1], "uint8", fun _ => half⟩
      else ⟨[res.2, res.1, 3], "uint8", fun _ => 0⟩ }

/-- One-sample dataset used with `envC` and `envD` (augmentation off). -/
def dsC : RailDataset :=
  { imgs_pth := "imgs", msks_pth := "msks", bg_dir_pth := none, res := (1, 1)
  , img_ftype := "png", msk_ftype := "png", batch_size := 1
  , transforms := false, tfs_prb := mergeDefaults []
  , img_pths := ["i0.png"], msk_pths := ["m0.png"] }

/-- Witness for C5: a mask of 2s raises the class-report error; a mask of
0.5s passes the bound check. -/
theorem c5_mask_range_validation_witness :
    processFile envC dsC 0 = .error (.badMaskClasses [2]) ∧
    isOkB (processFile envD dsC 0) = true := by
  constructor
  · have h := c5_mask_range_validation envC dsC 0 rfl (by decide) (by decide)
      (by decide) (by decide)
    have h2 := h.2.2.2.1 ⟨[0, 0], by decide, by decide⟩
    rw [h2]
    rfl
  · have h := c5_mask_range_validation envD dsC 0 rfl (by decide) (by decide)
      (by decide) (by decide)
    exact h.2.2.2.2 (by decide)

/-- An in-range `getD` read is a member of the list. -/
theorem getD_mem {α : Type} :
    ∀ (l : List α) (i : Nat) (a : α), i < l.length → l.getD i a ∈ l := by
  intro l
  induction l with
  | nil => intro i a h; simp at h
  | cons x l ih =>
    intro i a h
    cases i with
    | zero => simp
    | succ i =>
      simp only [List.getD_cons_succ]
      exact List.mem_cons_of_mem x (ih i a (by simpa using h))

/-- Successful `np.stack`: the input was nonempty, and the result has a new
leading batch axis over the head's shape and dtype, reading back the stacked
arrays. -/
theorem npStack_ok (l : List NpArray) (arr : NpArray)
    (h : npStack l = .ok arr) :
    ∃ a0 rest, l = a0 :: rest ∧
      arr.shape = l.length :: a0.shape ∧ arr.dtype = a0.dtype ∧
      ∀ i idx2, arr.data (i :: idx2) = (l.getD i a0).data idx2 := by
  cases l with
  | nil => exact Except.noConfusion h
  | cons a rest =>
    simp only [npStack] at h
    split at h
    · injection h with h
      refine ⟨a, rest, rfl, ?_, ?_, ?_⟩
      · rw [← h]
      · rw [← h]
      · intro i idx2
        rw [← h]
    · exact Except.noConfusion h

/-- Packaging step on a (height, width) mask that passes validation: the
sample mask comes out as a (height, width, 1) float32 array with all values
inside the validated [0, 1] range. -/
theorem finalizeSample_ok_mask (im : NpArray) (mk0 : NpArray) (H W : Nat)
    (hsh : mk0.shape = [H, W]) (pr : NpArray × NpArray)
    (h : finalizeSample im mk0 = .ok pr) :
    pr.2.shape = [H, W, 1] ∧ pr.2.dtype = "float32" ∧
    ∀ idx ∈ allIdx pr.2.shape, 0 ≤ pr.2.data idx ∧ pr.2.data idx ≤ 1 := by
  obtain ⟨sh, dt, f⟩ := mk0
  have hsh2 : sh = [H, W] := hsh
  subst hsh2
  simp only [finalizeSample] at h
  split at h
  · exact Except.noConfusion h
  · rename_i hc
    push_neg at hc
    obtain ⟨hc1, hc2⟩ := hc
    rw [transposeArr_eq_ok [1, 2, 0]
      (astype "float32" (expandDims0 ⟨[H, W], dt, f⟩)) rfl] at h
    cases htr1 : transposeArr [0, 1, 2] (npDivScalar (astype "float32" im) 255) with
    | error e => rw [htr1] at h; exact Except.noConfusion h
    | ok img_trans =>
      rw [htr1] at h
      injection h with h
      rw [← h]
      refine ⟨rfl, rfl, ?_⟩
      intro idx hidx
      have hidx2 : idx ∈ allIdx [H, W, 1] := hidx
      obtain ⟨a, ha, r1, hr1, rfl⟩ := (mem_allIdx_cons _ _ _).mp hidx2
      obtain ⟨b2, hb2, r2, hr2, rfl⟩ := (mem_allIdx_cons _ _ _).mp hr1
      obtain ⟨c, hc3, r3, hr3, rfl⟩ := (mem_allIdx_cons _ _ _).mp hr2
      have hr3nil : r3 = [] := by simpa [allIdx] using hr3
      subst hr3nil
      show 0 ≤ f [a, b2] ∧ f [a, b2] ≤ 1
      have hmem : f [a, b2] ∈ npValues ⟨[H, W], dt, f⟩ := by
        apply List.mem_map_of_mem
        apply (mem_allIdx_cons _ _ _).mpr
        refine ⟨a, ha, [b2], ?_, rfl⟩
        exact (mem_allIdx_cons _ _ _).mpr ⟨b2, hb2, [], by simp [allIdx], rfl⟩
      constructor
      · exact le_trans hc2 (npMin_le_of_mem _ _ hmem)
      · exact le_trans (le_npMax_of_mem _ _ hmem) hc1

/-- One successful `__getitem__` loop iteration: if masks decode to
(height, width) arrays and the albumentations chain preserves the mask
shape, the produced sample mask is (height, width, 1) float32 with all
values in [0, 1]. -/
theorem processFile_ok_mask (env : Env) (d : RailDataset) (i : Nat)
    (hload : ∀ p ∈ d.msk_pths,
      (env.loadArr p d.res).shape = [d.res.2, d.res.1])
    (halb : ∀ tf im mk2, ((env.albApply tf im mk2).2).shape = mk2.shape)
    (pr : NpArray × NpArray) (h : processFile env d i = .ok pr) :
    pr.2.shape = [d.res.2, d.res.1, 1] ∧ pr.2.dtype = "float32" ∧
    ∀ idx ∈ allIdx pr.2.shape, 0 ≤ pr.2.data idx ∧ pr.2.data idx ≤ 1 := by
  simp only [processFile] at h
  split at h
  · rename_i hb1
    split at h
    · rename_i hb2
      have hmsk : (env.loadArr (d.msk_pths.getD i "") d.res).shape =
          [d.res.2, d.res.1] :=
        hload _ (getD_mem d.msk_pths i "" hb2)
      split at h
      · split at h
        · exact Except.noConfusion h
        · exact finalizeSample_ok_mask _ _ _ _ (by rw [halb, hmsk]) pr h
      · exact finalizeSample_ok_mask _ _ _ _ hmsk pr h
    · exact Except.noConfusion h
  · exact Except.noConfusion h

/-- C3 (amended): every successful `get_batch` returns its mask batch with
shape (batch_size, height, width, 1) — leading batch axis, trailing channel
axis — and dtype float32, with every value inside [0, 1]; the range
validation bounds the values but does not force them into {0, 1}.  Stated
under the decode assumption that masks are (height, width) rasters and that
the albumentations chain preserves the mask shape. -/
theorem c3_mask_batch_shape_amended (env : Env) (d : RailDataset) (b : Nat)
    (hload : ∀ p ∈ d.msk_pths,
      (env.loadArr p d.res).shape = [d.res.2, d.res.1])
    (halb : ∀ tf im mk2, ((env.albApply tf im mk2).2).shape = mk2.shape)
    (pr : NpArray × NpArray) (hok : getBatch env d b = .ok pr) :
    pr.2.shape = d.batch_size :: [d.res.2, d.res.1, 1] ∧
    pr.2.dtype = "float32" ∧
    ∀ idx ∈ allIdx pr.2.shape, 0 ≤ pr.2.data idx ∧ pr.2.data idx ≤ 1 := by
  unfold getBatch at hok
  cases hps : processFiles env d (batchFileIndices d b) with
  | error e => rw [hps] at hok; exact Except.noConfusion hok
  | ok pairs =>
    rw [hps] at hok
    have hok2 : stackPairs pairs = .ok pr := hok
    unfold stackPairs at hok2
    cases hs1 : npStack (pairs.map Prod.fst) with
    | error e => rw [hs1] at hok2; exact Except.noConfusion hok2
    | ok ib =>
      rw [hs1] at hok2
      cases hs2 : npStack (pairs.map Prod.snd) with
      | error e => rw [hs2] at hok2; exact Except.noConfusion hok2
      | ok mb =>
        rw [hs2] at hok2
        injection hok2 with hok2
        have hpr2 : pr.2 = mb := by rw [← hok2]
        have hplen : pairs.length = d.batch_size := by
          rw [processFiles_length env d _ pairs hps, batchFileIndices,
            List.length_range']
        obtain ⟨m0, rest, hcons, hshape, hdtype, hdata⟩ :=
          npStack_ok _ mb hs2
        have hm0mem : m0 ∈ pairs.map Prod.snd := by rw [hcons]; simp
        obtain ⟨p0, hp0mem, hp0eq⟩ := List.mem_map.mp hm0mem
        obtain ⟨i0, hi0, hi0ok⟩ := processFiles_mem env d _ pairs hps p0 hp0mem
        have hm0 := processFile_ok_mask env d i0 hload halb p0 hi0ok
        rw [hp0eq] at hm0
        refine ⟨?_, ?_, ?_⟩
        · rw [hpr2, hshape, hm0.1, List.length_map, hplen]
        · rw [hpr2, hdtype, hm0.2.1]
        · intro idx hidx
          rw [hpr2] at hidx ⊢
          rw [hshape, hm0.1] at hidx
          obtain ⟨i, hi, rest2, hrest2, rfl⟩ :=
            (mem_allIdx_cons _ _ idx).mp hidx
          rw [hdata i rest2]
          have helem : (pairs.map Prod.snd).getD i m0 ∈ pairs.map Prod.snd :=
            getD_mem _ i m0 hi
          obtain ⟨p1, hp1mem, hp1eq⟩ := List.mem_map.mp helem
          obtain ⟨i1, hi1, hi1ok⟩ :=
            processFiles_mem env d _ pairs hps p1 hp1mem
          have hm1 := processFile_ok_mask env d i1 hload halb p1 hi1ok
          rw [← hp1eq]
          exact hm1.2.2 rest2 (by rw [hm1.1]; exact hrest2)

/-- Environment for the C3 counterexample: masks decode as 8x4 rasters with
one 0.5 pixel, images as 8x4x3 rasters. -/
def envF : Env :=
  { glob := fun dir _ =>
      if dir = "imgs" then ["i0.png"]
      else if dir = "msks" then ["m0.png"] else []
  , stem := fun s =>
      if s = "i0.png" then "0" else if s = "m0.png" then "0" else s
  , loadArr := fun p res =>
      if p = "m0.png" then
        ⟨[res.2, res.1], "uint8", fun idx => if idx = [0, 1] then half else 0⟩
      else ⟨[res.2, res.1, 3], "uint8", fun _ => 0⟩
  , shuffle := fun l => l
  , augmentImages := fun im _ _ _ _ => im
  , albApply := fun _ im mk2 => (im, mk2) }

/-- One-sample dataset over `envF` with width 4 and height 8. -/
def dsF : RailDataset :=
  { imgs_pth := "imgs", msks_pth := "msks", bg_dir_pth := none, res := (4, 8)
  , img_ftype := "png", msk_ftype := "png", batch_size := 1
  , transforms := false, tfs_prb := mergeDefaults []
  , img_pths := ["i0.png"], msk_pths := ["m0.png"] }

set_option maxRecDepth 8000 in
/-- C3 counterexample: at width 4, height 8, batch size 1, the successful
fetch returns a mask batch of shape [1, 8, 4, 1] — (batch, height, width,
channel) — not the claimed (batch_size, 1, height, width) = [1, 1, 8, 4];
moreover the batch contains the value 0.5, which is inside the validated
bound [0, 1] but outside {0, 1}. -/
theorem c3_mask_batch_counterexample :
    (getBatch envF dsF 0).map (fun pr => pr.2.shape) = .ok [1, 8, 4, 1] ∧
    ([1, 8, 4, 1] : List Nat) ≠ [1, 1, 8, 4] ∧
    (getBatch envF dsF 0).map (fun pr => pr.2.data [0, 0, 1, 0]) =
      .ok half ∧
    ¬(half = 0 ∨ half = 1) := by
  refine ⟨rfl, by decide, rfl, by decide⟩

set_option maxRecDepth 8000 in
/-- Witness for the amended C3 on the concrete environment. -/
theorem c3_mask_batch_shape_amended_witness :
    ∃ pr, getBatch envF dsF 0 = .ok pr ∧
      pr.2.shape = dsF.batch_size :: [dsF.res.2, dsF.res.1, 1] ∧
      pr.2.dtype = "float32" := by
  obtain ⟨pr, hpr⟩ : ∃ pr, getBatch envF dsF 0 = .ok pr := ⟨_, rfl⟩
  have h := c3_mask_batch_shape_amended envF dsF 0 (by decide)
    (fun tf im mk2 => rfl) pr hpr
  exact ⟨pr, hpr, h.1, h.2.1⟩
